import Mathlib

/-!
# alertmanager-silence-exporter: the block merger, the silence filter and the thread lookup

A shallow embedding of `cmd/alertmanager-silence-exporter/main.go` and of the
`removeOldAlertmanagerBlock` of `cmd/silence-exporter/main.go`.

A Go `string` is a finite sequence of bytes. It is modelled as a list of
`Char`, one element per byte; nothing below depends on the range of an
element. `strings.Index`, slicing and concatenation act on offsets in that
sequence, so offsets in the model are the byte offsets of the program.
A Go run-time panic (slice bound out of range, nil dereference) is `none`.
The rendered template (`out.String()`), the compiled regular expression, the
method `String` of a matcher and the clock are inputs of the definitions.
-/

set_option autoImplicit false
set_option maxRecDepth 20000

/-- A Go string: its bytes in order, one list element per byte. -/
abbrev GoString := List Char

namespace GoString

/-- Offset of the first occurrence of `sub` in `s`, when there is one. -/
def indexOf (sub : GoString) : GoString → Option Nat
  | [] => if sub = [] then some 0 else none
  | c :: s =>
    if sub.isPrefixOf (c :: s) then some 0
    else (indexOf sub s).map (· + 1)

/-- Go `strings.Index(s, substr)`: the offset of the first occurrence of
`substr` in `s`, or `-1` when `substr` does not occur in `s`. -/
def Index (s substr : GoString) : Int :=
  match indexOf substr s with
  | some i => (i : Int)
  | none => -1

/-- Go slice expression `s[:hi]`; it panics unless `0 ≤ hi ≤ len(s)`. -/
def sliceTo (s : GoString) (hi : Int) : Option GoString :=
  if 0 ≤ hi ∧ hi ≤ (s.length : Int) then some (s.take hi.toNat) else none

/-- Go slice expression `s[lo:]`; it panics unless `0 ≤ lo ≤ len(s)`. -/
def sliceFrom (s : GoString) (lo : Int) : Option GoString :=
  if 0 ≤ lo ∧ lo ≤ (s.length : Int) then some (s.drop lo.toNat) else none

/-- Go `strings.Replace(s, old, new, -1)` for a one-byte `old`: every byte
equal to `old` is replaced by `new`, the other bytes are kept. -/
def replaceByte (s : GoString) (old : Char) (new : GoString) : GoString :=
  s.flatMap (fun c => if c = old then new else [c])

/-- Number of offsets of `s` at which `sub` occurs. -/
def occurrences (sub : GoString) : GoString → Nat
  | [] => if sub = [] then 1 else 0
  | c :: s => (if sub.isPrefixOf (c :: s) then 1 else 0) + occurrences sub s

/-- `sub` occurs in `s` at offset `i` and at no smaller offset. -/
def FirstOccurrenceAt (s sub : GoString) (i : Nat) : Prop :=
  sub <+: s.drop i ∧ ∀ j, j < i → ¬ sub <+: s.drop j

instance (s sub : GoString) (i : Nat) : Decidable (FirstOccurrenceAt s sub i) := by
  unfold FirstOccurrenceAt
  infer_instance

end GoString

open GoString

/-- The constant `StartIdentifier = "<!-- START_%s -->"`, formatted with the
value of the flag `github-alertmanager-name` (`getStartIdentifier`). -/
def getStartIdentifier (name : GoString) : GoString :=
  "<!-- START_".toList ++ name ++ " -->".toList

/-- The constant `EndIdentifier = "<!-- END_%s -->"`, formatted with the
value of the flag `github-alertmanager-name` (`getEndIdentifier`). -/
def getEndIdentifier (name : GoString) : GoString :=
  "<!-- END_".toList ++ name ++ " -->".toList

namespace AlertmanagerSilenceExporter

/-- `removeOldAlertmanagerBlock` of `cmd/alertmanager-silence-exporter`:
the new value of `*body`, or `none` when a slice expression panics. -/
def removeOldAlertmanagerBlock (name body : GoString) : Option GoString :=
  let startIndex := Index body (getStartIdentifier name)
  let endIndex := Index body (getEndIdentifier name)
  if startIndex ≠ -1 ∧ endIndex ≠ -1 then
    let oldBody := body
    match sliceTo oldBody (startIndex - 1),
          sliceFrom oldBody (endIndex + ((getEndIdentifier name).length : Int)) with
    | some head, some tail => some (head ++ tail)
    | _, _ => none
  else some body

/-- The statement `fmt.Sprintf("%s\n%s\n%s\n%s", *discussion.Body,
getStartIdentifier(), out.String(), getEndIdentifier())` of `main`. -/
def appendSection (name body out : GoString) : GoString :=
  body ++ '\n' :: (getStartIdentifier name ++ '\n' :: (out ++ '\n' :: getEndIdentifier name))

/-- The block merger of `main` on a body that is not nil: the old block is
removed when the body is not empty, then the new section is appended. -/
def mergeBody (name body out : GoString) : Option GoString :=
  (if body ≠ [] then removeOldAlertmanagerBlock name body else some body).map
    (fun b => appendSection name b out)

/-- Neither marker of the identity `X` occurs in `s`. -/
def NoMarker (X s : GoString) : Prop :=
  ¬ getStartIdentifier X <:+: s ∧ ¬ getEndIdentifier X <:+: s

instance (X s : GoString) : Decidable (NoMarker X s) := by
  unfold NoMarker
  infer_instance

end AlertmanagerSilenceExporter

namespace SilenceExporter

/-- `removeOldAlertmanagerBlock` of `cmd/silence-exporter`. -/
def removeOldAlertmanagerBlock (name body : GoString) : Option GoString :=
  let startIndex := Index body (getStartIdentifier name)
  let endIndex := Index body (getEndIdentifier name)
  if startIndex ≠ -1 ∧ endIndex ≠ -1 then
    let oldBody := body
    match sliceTo oldBody startIndex, sliceFrom oldBody endIndex with
    | some head, some tail => some (head ++ tail)
    | _, _ => none
  else some body

end SilenceExporter

namespace AlertmanagerSilenceExporter

/-- The fields of `github.TeamDiscussion` that `main` reads or writes; each
is a pointer in the program, `none` is the nil pointer. -/
structure TeamDiscussion where
  Title : Option GoString
  Body : Option GoString
  Pinned : Option Bool
  Number : Option Int
deriving DecidableEq, Repr

/-- The getter `GetTitle` of go-github: the title, or `""` when it is nil. -/
def TeamDiscussion.GetTitle (d : TeamDiscussion) : GoString :=
  match d.Title with
  | some t => t
  | none => []

/-- The loop of `main` over `discussions` (no element of the list is a nil
pointer): `discussion` is assigned at every element whose title is the
configured one, and is nil (`none`) when there is none. -/
def findDiscussion (discussions : List TeamDiscussion) (githubDiscussionTitle : GoString) :
    Option TeamDiscussion :=
  discussions.foldl
    (fun discussion d => if d.GetTitle = githubDiscussionTitle then some d else discussion) none

/-- The discussion `main` builds when the loop found none. -/
def newDiscussion (githubDiscussionTitle : GoString) : TeamDiscussion :=
  { Title := some githubDiscussionTitle, Pinned := some true, Body := some [], Number := none }

/-- The thread lookup of `main`: the values of `discussion` and `isNew` after
the `if discussion == nil` block. -/
def selectDiscussion (discussions : List TeamDiscussion) (githubDiscussionTitle : GoString) :
    TeamDiscussion × Bool :=
  match findDiscussion discussions githubDiscussionTitle with
  | some d => (d, false)
  | none => (newDiscussion githubDiscussionTitle, true)

/-- The body `main` assigns to `discussion.Body` for the rendered template
output `out`; reading `*discussion.Body` of a nil body panics. -/
def publishedBody (name : GoString) (discussion : TeamDiscussion) (out : GoString) :
    Option GoString :=
  match discussion.Body with
  | some body => mergeBody name body out
  | none => none

/-- A matcher of a silence (`types.Matcher` of Alertmanager). -/
structure Matcher where
  Name : GoString
  Value : GoString
  IsRegex : Bool
deriving DecidableEq, Repr

/-- The fields of `types.Silence` that the program uses; `EndsAt` is an
instant on the time line. -/
structure Silence where
  ID : GoString
  Matchers : List Matcher
  EndsAt : Int
  CreatedBy : GoString
  Comment : GoString
deriving DecidableEq, Repr

/-- Go `fmt.Sprintf("%v", xs)` for a `[]string`: the elements separated by
one space, in square brackets. -/
def sprintStrings (xs : List GoString) : GoString :=
  '[' :: (" ".toList.intercalate xs ++ [']'])

/-- The two `strings.Replace` calls of `getSilences` on the printed matcher
list: every `|` becomes `\|`, then every double quote is removed. -/
def matcherID (matcher : List GoString) : GoString :=
  let output := sprintStrings matcher
  let id := replaceByte output '|' "\\|".toList
  replaceByte id '\"' "".toList

/-- The loop of `getSilences` over the silences the API returned.
`regexMatch` is `regex.MatchString` of the compiled comment filter,
`matcherString` is the method `String` of a matcher, and `now i` is the value
of `time.Now()` in iteration `i`. -/
def getSilences (regexMatch : GoString → Bool) (matcherString : Matcher → GoString)
    (now : Nat → Int) (silences : List Silence) : List Silence :=
  (silences.foldl
    (fun (st : List Silence × Nat) s =>
      if !regexMatch s.Comment && !decide (now st.2 > s.EndsAt) then
        (st.1 ++ [{ s with ID := matcherID (s.Matchers.map matcherString) }], st.2 + 1)
      else (st.1, st.2 + 1))
    ([], 0)).1

/-- Every `|` of `l` stands right after a backslash. -/
def PipesEscaped (l : GoString) : Prop :=
  ∀ i, l[i]? = some '|' → ∃ j, i = j + 1 ∧ l[j]? = some '\\'

end AlertmanagerSilenceExporter

/-! ## `strings.Index`: first occurrence -/

namespace GoString

theorem indexOf_eq_none_iff (sub s : GoString) :
    indexOf sub s = none ↔ ¬ sub <:+: s := by
  induction s with
  | nil =>
    by_cases h : sub = [] <;> simp [indexOf, h]
  | cons c s ih =>
    by_cases h : sub <+: c :: s
    · simp [indexOf, h, List.infix_cons_iff]
    · simp [indexOf, h, List.infix_cons_iff, ih]

theorem indexOf_eq_some_iff (sub s : GoString) (i : Nat) :
    indexOf sub s = some i ↔ i ≤ s.length ∧ FirstOccurrenceAt s sub i := by
  induction s generalizing i with
  | nil =>
    by_cases h : sub = []
    · subst h
      simp only [indexOf, FirstOccurrenceAt]
      simp
      constructor
      · rintro rfl
        simp
      · rintro ⟨h, -⟩
        exact h.symm
    · simp only [indexOf, h, FirstOccurrenceAt]
      simp
      intro _ hs
      exact absurd hs h
  | cons c s ih =>
    by_cases h : sub <+: c :: s
    · simp only [indexOf, List.isPrefixOf_iff_prefix, h, if_true, FirstOccurrenceAt]
      constructor
      · intro hi
        have : i = 0 := by simpa using hi.symm
        subst this
        simp [h]
      · rintro ⟨-, -, h2⟩
        cases i with
        | zero => rfl
        | succ k => exact absurd h (by simpa using h2 0 (Nat.succ_pos k))
    · simp only [indexOf, List.isPrefixOf_iff_prefix, h, if_false, FirstOccurrenceAt]
      cases i with
      | zero =>
        simp [h]
      | succ k =>
        simp only [Option.map_eq_some', Nat.add_right_cancel_iff, exists_eq_right, ih k,
          FirstOccurrenceAt, List.drop_succ_cons, List.length_cons, Nat.add_le_add_iff_right]
        constructor
        · rintro ⟨hk, hp, hj⟩
          refine ⟨hk, hp, ?_⟩
          intro j hjk
          cases j with
          | zero => simpa using h
          | succ m => simpa using hj m (by omega)
        · rintro ⟨hk, hp, hj⟩
          refine ⟨hk, hp, ?_⟩
          intro j hjk
          simpa using hj (j + 1) (by omega)

theorem FirstOccurrenceAt.le_length {s sub : GoString} {i : Nat}
    (h : FirstOccurrenceAt s sub i) : i ≤ s.length := by
  by_contra hlt
  have hi : s.length ≤ i := by omega
  have hnil : sub = [] := by
    have := h.1
    rwa [List.drop_of_length_le hi, List.prefix_nil] at this
  subst hnil
  exact h.2 0 (by omega) List.nil_prefix

theorem FirstOccurrenceAt.add_length_le {s sub : GoString} {i : Nat}
    (h : FirstOccurrenceAt s sub i) : i + sub.length ≤ s.length := by
  have h1 := h.1.length_le
  have h2 := h.le_length
  rw [List.length_drop] at h1
  omega

theorem FirstOccurrenceAt.isInfix {s sub : GoString} {i : Nat}
    (h : FirstOccurrenceAt s sub i) : sub <:+: s :=
  h.1.isInfix.trans (List.drop_suffix i s).isInfix

theorem Index_eq_neg_one_iff (s sub : GoString) :
    Index s sub = -1 ↔ ¬ sub <:+: s := by
  rw [← indexOf_eq_none_iff]
  unfold Index
  cases h : indexOf sub s with
  | none => simp
  | some i => simp

theorem Index_of_firstOccurrenceAt {s sub : GoString} {i : Nat}
    (h : FirstOccurrenceAt s sub i) : Index s sub = (i : Int) := by
  have := (indexOf_eq_some_iff sub s i).2 ⟨h.le_length, h⟩
  simp [Index, this]

theorem exists_firstOccurrenceAt {s sub : GoString} (h : sub <:+: s) :
    ∃ i, FirstOccurrenceAt s sub i := by
  cases hi : indexOf sub s with
  | none => exact absurd h ((indexOf_eq_none_iff sub s).1 hi)
  | some i => exact ⟨i, ((indexOf_eq_some_iff sub s i).1 hi).2⟩

theorem sliceTo_of_le {s : GoString} {k : Nat} (h : k ≤ s.length) :
    sliceTo s (k : Int) = some (s.take k) := by
  simp [sliceTo, h]

theorem sliceFrom_of_le {s : GoString} {k : Nat} (h : k ≤ s.length) :
    sliceFrom s (k : Int) = some (s.drop k) := by
  simp [sliceFrom, h]

end GoString

/-! ## The block merger: replacing the owned span -/

namespace AlertmanagerSilenceExporter

/-- Both markers present, the first start marker at an offset `k + 1`: the
block is cut out together with the byte before the start marker. -/
theorem removeOldAlertmanagerBlock_of_first {name body : GoString} {k e : Nat}
    (hs : FirstOccurrenceAt body (getStartIdentifier name) (k + 1))
    (he : FirstOccurrenceAt body (getEndIdentifier name) e) :
    removeOldAlertmanagerBlock name body
      = some (body.take k ++ body.drop (e + (getEndIdentifier name).length)) := by
  have h1 := Index_of_firstOccurrenceAt hs
  have h2 := Index_of_firstOccurrenceAt he
  have h3 : k ≤ body.length := by have := hs.le_length; omega
  have h4 := he.add_length_le
  have h5 : ((k + 1 : Nat) : Int) - 1 = (k : Int) := by omega
  have h6 : (e : Int) + ((getEndIdentifier name).length : Int)
      = ((e + (getEndIdentifier name).length : Nat) : Int) := by omega
  have h7 : ¬ (((k + 1 : Nat) : Int) = -1) := by omega
  have h8 : ¬ ((e : Int) = -1) := by omega
  simp only [removeOldAlertmanagerBlock, h1, h2]
  rw [if_pos ⟨h7, h8⟩, h5, h6, sliceTo_of_le h3, sliceFrom_of_le h4]

/-- A marker that does not occur: the body is left as it is. -/
theorem removeOldAlertmanagerBlock_of_absent {name body : GoString}
    (h : ¬ getStartIdentifier name <:+: body ∨ ¬ getEndIdentifier name <:+: body) :
    removeOldAlertmanagerBlock name body = some body := by
  have : Index body (getStartIdentifier name) = -1 ∨ Index body (getEndIdentifier name) = -1 := by
    rcases h with h | h
    · exact Or.inl ((Index_eq_neg_one_iff _ _).2 h)
    · exact Or.inr ((Index_eq_neg_one_iff _ _).2 h)
  unfold removeOldAlertmanagerBlock
  rcases this with h | h <;> simp [h]

/-- The merge of a body `pre ++ c ++ S ++ mid ++ E ++ post` whose shown
markers are the first occurrences: the section is appended to `pre ++ post`. -/
theorem mergeBody_of_first_occurrences (X N pre mid post : GoString) (c : Char)
    (hS : FirstOccurrenceAt
      (pre ++ c :: (getStartIdentifier X ++ mid ++ getEndIdentifier X ++ post))
      (getStartIdentifier X) (pre.length + 1))
    (hE : FirstOccurrenceAt
      (pre ++ c :: (getStartIdentifier X ++ mid ++ getEndIdentifier X ++ post))
      (getEndIdentifier X) (pre.length + 1 + (getStartIdentifier X).length + mid.length)) :
    mergeBody X (pre ++ c :: (getStartIdentifier X ++ mid ++ getEndIdentifier X ++ post)) N
      = some (appendSection X (pre ++ post) N) := by
  have hne : pre ++ c :: (getStartIdentifier X ++ mid ++ getEndIdentifier X ++ post) ≠ [] := by
    simp
  have htake : (pre ++ c :: (getStartIdentifier X ++ mid ++ getEndIdentifier X ++ post)).take
      pre.length = pre := by simp
  have hdrop : (pre ++ c :: (getStartIdentifier X ++ mid ++ getEndIdentifier X ++ post)).drop
      (pre.length + 1 + (getStartIdentifier X).length + mid.length
        + (getEndIdentifier X).length) = post := by
    have e1 : pre.length + 1 + (getStartIdentifier X).length + mid.length
        + (getEndIdentifier X).length
        = (pre ++ c :: (getStartIdentifier X ++ mid ++ getEndIdentifier X)).length := by
      simp; omega
    have e2 : pre ++ c :: (getStartIdentifier X ++ mid ++ getEndIdentifier X ++ post)
        = (pre ++ c :: (getStartIdentifier X ++ mid ++ getEndIdentifier X)) ++ post := by
      simp
    rw [e1, e2, List.drop_left]
  unfold mergeBody
  rw [if_pos hne, removeOldAlertmanagerBlock_of_first hS hE, htake, hdrop]
  rfl

/-- C1. A body `pre ++ c ++ S(X) ++ mid ++ E(X) ++ post`, in which the shown
markers are the first occurrences of the start and of the end marker of `X`,
is merged with a new section text `N` into
`pre ++ post ++ "\n" ++ S(X) ++ "\n" ++ N ++ "\n" ++ E(X)`. -/
theorem mergeBody_replaces_owned_span (X N pre mid post : GoString) (c : Char)
    (hS : FirstOccurrenceAt
      (pre ++ c :: (getStartIdentifier X ++ mid ++ getEndIdentifier X ++ post))
      (getStartIdentifier X) (pre.length + 1))
    (hE : FirstOccurrenceAt
      (pre ++ c :: (getStartIdentifier X ++ mid ++ getEndIdentifier X ++ post))
      (getEndIdentifier X) (pre.length + 1 + (getStartIdentifier X).length + mid.length)) :
    mergeBody X (pre ++ c :: (getStartIdentifier X ++ mid ++ getEndIdentifier X ++ post)) N
      = some (pre ++ post ++ "\n".toList ++ getStartIdentifier X ++ "\n".toList ++ N
          ++ "\n".toList ++ getEndIdentifier X) := by
  rw [mergeBody_of_first_occurrences X N pre mid post c hS hE]
  simp [appendSection]

/-- C1, the scenario of the specification: identity `foo`, new content `NEW`. -/
theorem mergeBody_replaces_owned_span_scenario :
    mergeBody "foo".toList
        "Intro\n<!-- START_foo -->\nOLD\n<!-- END_foo -->\nOutro".toList "NEW".toList
      = some "Intro\nOutro\n<!-- START_foo -->\nNEW\n<!-- END_foo -->".toList :=
  mergeBody_replaces_owned_span "foo".toList "NEW".toList "Intro".toList "\nOLD\n".toList
    "\nOutro".toList '\n' (by decide) (by decide)

end AlertmanagerSilenceExporter

/-! ## The block merger: panics, absent markers, the empty body -/

namespace AlertmanagerSilenceExporter

/-- A body that begins with the start marker and holds an end marker: the
slice `oldBody[:startIndex-1]` is `oldBody[:-1]`, which panics. -/
theorem removeOldAlertmanagerBlock_start_at_zero (name mid post : GoString) :
    removeOldAlertmanagerBlock name
      (getStartIdentifier name ++ mid ++ getEndIdentifier name ++ post) = none := by
  have hs : FirstOccurrenceAt
      (getStartIdentifier name ++ mid ++ getEndIdentifier name ++ post)
      (getStartIdentifier name) 0 := by
    refine ⟨?_, fun j hj => absurd hj (Nat.not_lt_zero j)⟩
    simp [List.append_assoc]
  have he : Index (getStartIdentifier name ++ mid ++ getEndIdentifier name ++ post)
      (getEndIdentifier name) ≠ -1 := by
    rw [Ne, Index_eq_neg_one_iff, not_not]
    exact ⟨getStartIdentifier name ++ mid, post, by simp⟩
  have h1 := Index_of_firstOccurrenceAt hs
  simp only [removeOldAlertmanagerBlock, h1]
  rw [if_pos ⟨by decide, he⟩]
  simp [sliceTo]

/-- A marker that does not occur: the section is appended to the body. -/
theorem mergeBody_of_absent {X body : GoString} (N : GoString)
    (h : ¬ getStartIdentifier X <:+: body ∨ ¬ getEndIdentifier X <:+: body) :
    mergeBody X body N = some (appendSection X body N) := by
  unfold mergeBody
  by_cases hb : body = []
  · rw [if_neg (not_not.2 hb)]
    rfl
  · rw [if_pos hb, removeOldAlertmanagerBlock_of_absent h]
    rfl

/-- C4. On the body `<!-- START_foo -->\nOLD\n<!-- END_foo -->`, whose start
marker is at offset 0, `removeOldAlertmanagerBlock` for the identity `foo`
returns no body: the slice bound `startIndex-1` is `-1` and the slice
expression panics, and so does the merge of `main`. -/
theorem removeOldAlertmanagerBlock_panics_at_offset_zero :
    Index "<!-- START_foo -->\nOLD\n<!-- END_foo -->".toList (getStartIdentifier "foo".toList) = 0
    ∧ Index "<!-- START_foo -->\nOLD\n<!-- END_foo -->".toList (getEndIdentifier "foo".toList)
        = 23
    ∧ sliceTo "<!-- START_foo -->\nOLD\n<!-- END_foo -->".toList (0 - 1) = none
    ∧ removeOldAlertmanagerBlock "foo".toList
        "<!-- START_foo -->\nOLD\n<!-- END_foo -->".toList = none
    ∧ mergeBody "foo".toList "<!-- START_foo -->\nOLD\n<!-- END_foo -->".toList "NEW".toList
        = none := by
  decide

/-- C5, as the claim states it, fails: in the body
`<!-- END_a -->xy<!-- START_a -->` the first end marker of `a` begins before
the first start marker, and `removeOldAlertmanagerBlock` changes the body
(the byte `x` is doubled). -/
theorem removeOldAlertmanagerBlock_reversed_order_changes_body :
    Index "<!-- END_a -->xy<!-- START_a -->".toList (getEndIdentifier "a".toList) = 0
    ∧ Index "<!-- END_a -->xy<!-- START_a -->".toList (getStartIdentifier "a".toList) = 16
    ∧ removeOldAlertmanagerBlock "a".toList "<!-- END_a -->xy<!-- START_a -->".toList
        = some "<!-- END_a -->xxy<!-- START_a -->".toList
    ∧ removeOldAlertmanagerBlock "a".toList "<!-- END_a -->xy<!-- START_a -->".toList
        ≠ some "<!-- END_a -->xy<!-- START_a -->".toList := by
  decide

/-- C5, amended. When the start marker of `X` does not occur in the body, or
the end marker of `X` does not occur in the body, `removeOldAlertmanagerBlock`
leaves the body unchanged, and the merged body is the old body followed by
`"\n"` and the freshly wrapped section. -/
theorem removeOldAlertmanagerBlock_unchanged_of_absent_marker (X body N : GoString)
    (h : ¬ getStartIdentifier X <:+: body ∨ ¬ getEndIdentifier X <:+: body) :
    removeOldAlertmanagerBlock X body = some body
    ∧ mergeBody X body N
        = some (body ++ "\n".toList ++ getStartIdentifier X ++ "\n".toList ++ N
            ++ "\n".toList ++ getEndIdentifier X) := by
  refine ⟨removeOldAlertmanagerBlock_of_absent h, ?_⟩
  rw [mergeBody_of_absent N h]
  simp [appendSection]

/-- C5, amended, at a body with a start marker and no end marker. -/
theorem removeOldAlertmanagerBlock_unchanged_of_absent_marker_witness :
    removeOldAlertmanagerBlock "a".toList "hello<!-- START_a -->".toList
      = some "hello<!-- START_a -->".toList
    ∧ mergeBody "a".toList "hello<!-- START_a -->".toList "NEW".toList
        = some "hello<!-- START_a -->\n<!-- START_a -->\nNEW\n<!-- END_a -->".toList :=
  removeOldAlertmanagerBlock_unchanged_of_absent_marker "a".toList
    "hello<!-- START_a -->".toList "NEW".toList (Or.inr (by decide))

/-- C6, as the claim states it, fails: merging `HELLO` for `bar` into the
empty body gives `\n<!-- START_bar -->\nHELLO\n<!-- END_bar -->`, which has a
newline before the start marker. -/
theorem mergeBody_empty_has_leading_newline :
    publishedBody "bar".toList (newDiscussion "Silence Overview".toList) "HELLO".toList
      = some "\n<!-- START_bar -->\nHELLO\n<!-- END_bar -->".toList
    ∧ publishedBody "bar".toList (newDiscussion "Silence Overview".toList) "HELLO".toList
      ≠ some "<!-- START_bar -->\nHELLO\n<!-- END_bar -->".toList := by
  decide

/-- C6, amended. For every identity `X` and section text `N`, the body
published for a new thread (empty starting body) is exactly
`"\n" ++ S(X) ++ "\n" ++ N ++ "\n" ++ E(X)`: one newline stands before the
start marker. -/
theorem publishedBody_new_thread (X N title : GoString) :
    publishedBody X (newDiscussion title) N
      = some ("\n".toList ++ getStartIdentifier X ++ "\n".toList ++ N ++ "\n".toList
          ++ getEndIdentifier X)
    ∧ mergeBody X [] N
      = some ("\n".toList ++ getStartIdentifier X ++ "\n".toList ++ N ++ "\n".toList
          ++ getEndIdentifier X) := by
  simp [publishedBody, newDiscussion, mergeBody, appendSection]

end AlertmanagerSilenceExporter

/-! ## The two `removeOldAlertmanagerBlock` -/

namespace SilenceExporter

/-- Both markers present: `cmd/silence-exporter` keeps the text before the
first start marker and the text from the first end marker on. -/
theorem removeOldAlertmanagerBlock_of_first_occurrences {name body : GoString} {s e : Nat}
    (hs : FirstOccurrenceAt body (getStartIdentifier name) s)
    (he : FirstOccurrenceAt body (getEndIdentifier name) e) :
    removeOldAlertmanagerBlock name body = some (body.take s ++ body.drop e) := by
  have h1 := Index_of_firstOccurrenceAt hs
  have h2 := Index_of_firstOccurrenceAt he
  have h7 : ¬ ((s : Int) = -1) := by omega
  have h8 : ¬ ((e : Int) = -1) := by omega
  simp only [removeOldAlertmanagerBlock, h1, h2]
  rw [if_pos ⟨h7, h8⟩, sliceTo_of_le hs.le_length, sliceFrom_of_le he.le_length]

end SilenceExporter

/-- C10, as the claim states it, fails: on `x\n<!-- START_a -->m<!-- END_a -->p`
the exporter for Alertmanager leaves `xp`, the older exporter leaves
`x\n<!-- END_a -->p`, and removing from that the byte before the start marker
(offset 1) gives `x<!-- END_a -->p`, not `xp`. -/
theorem removeOldAlertmanagerBlock_versions_differ_in_end_marker :
    Index "x\n<!-- START_a -->m<!-- END_a -->p".toList (getStartIdentifier "a".toList) = 2
    ∧ Index "x\n<!-- START_a -->m<!-- END_a -->p".toList (getEndIdentifier "a".toList) = 19
    ∧ AlertmanagerSilenceExporter.removeOldAlertmanagerBlock "a".toList
        "x\n<!-- START_a -->m<!-- END_a -->p".toList = some "xp".toList
    ∧ SilenceExporter.removeOldAlertmanagerBlock "a".toList
        "x\n<!-- START_a -->m<!-- END_a -->p".toList = some "x\n<!-- END_a -->p".toList
    ∧ List.eraseIdx "x\n<!-- END_a -->p".toList (2 - 1) = "x<!-- END_a -->p".toList
    ∧ AlertmanagerSilenceExporter.removeOldAlertmanagerBlock "a".toList
        "x\n<!-- START_a -->m<!-- END_a -->p".toList
      ≠ (SilenceExporter.removeOldAlertmanagerBlock "a".toList
          "x\n<!-- START_a -->m<!-- END_a -->p".toList).map (fun r => List.eraseIdx r (2 - 1)) := by
  decide

/-- C10, amended. For every identity `X` and every body in which both markers
of `X` occur and the first start marker is at an offset `s ≥ 1`, the body left
by `removeOldAlertmanagerBlock` of `cmd/alertmanager-silence-exporter` is the
body `r` left by the one of `cmd/silence-exporter` with the byte at offset
`s - 1` (the one before the start marker) and the end marker (the bytes of `r`
from offset `s` to `s + len(E(X))`) removed. -/
theorem removeOldAlertmanagerBlock_versions (X body : GoString) (s : Nat)
    (hS : FirstOccurrenceAt body (getStartIdentifier X) s) (hs : 1 ≤ s)
    (hE : getEndIdentifier X <:+: body) :
    ∃ r, SilenceExporter.removeOldAlertmanagerBlock X body = some r
      ∧ getEndIdentifier X <+: r.drop s
      ∧ AlertmanagerSilenceExporter.removeOldAlertmanagerBlock X body
          = some (r.take (s - 1) ++ r.drop (s + (getEndIdentifier X).length)) := by
  obtain ⟨e, he⟩ := exists_firstOccurrenceAt hE
  obtain ⟨k, rfl⟩ : ∃ k, s = k + 1 := ⟨s - 1, by omega⟩
  have hlen := hS.le_length
  refine ⟨body.take (k + 1) ++ body.drop e,
    SilenceExporter.removeOldAlertmanagerBlock_of_first_occurrences hS he, ?_, ?_⟩
  · have : (body.take (k + 1) ++ body.drop e).drop (k + 1) = body.drop e := by
      have hl : (body.take (k + 1)).length = k + 1 := by
        rw [List.length_take]; omega
      exact List.drop_left' hl
    rw [this]
    exact he.1
  · rw [AlertmanagerSilenceExporter.removeOldAlertmanagerBlock_of_first hS he]
    have hl : (body.take (k + 1)).length = k + 1 := by
      rw [List.length_take]; omega
    have h1 : (body.take (k + 1) ++ body.drop e).take (k + 1 - 1) = body.take k := by
      rw [List.take_append_of_le_length (by omega), List.take_take]
      congr 1
      omega
    have h2 : (body.take (k + 1) ++ body.drop e).drop (k + 1 + (getEndIdentifier X).length)
        = body.drop (e + (getEndIdentifier X).length) := by
      have h : ((body.take (k + 1)) ++ body.drop e).drop
            ((body.take (k + 1)).length + (getEndIdentifier X).length)
          = (body.drop e).drop (getEndIdentifier X).length :=
        List.drop_append (getEndIdentifier X).length
      rw [hl] at h
      rw [h, List.drop_drop]
    rw [h1, h2]

/-- C10, amended, at the body `x\n<!-- START_a -->m<!-- END_a -->p`. -/
theorem removeOldAlertmanagerBlock_versions_witness :
    ∃ r, SilenceExporter.removeOldAlertmanagerBlock "a".toList
          "x\n<!-- START_a -->m<!-- END_a -->p".toList = some r
      ∧ getEndIdentifier "a".toList <+: r.drop 2
      ∧ AlertmanagerSilenceExporter.removeOldAlertmanagerBlock "a".toList
          "x\n<!-- START_a -->m<!-- END_a -->p".toList
          = some (r.take (2 - 1) ++ r.drop (2 + (getEndIdentifier "a".toList).length)) :=
  removeOldAlertmanagerBlock_versions "a".toList "x\n<!-- START_a -->m<!-- END_a -->p".toList 2
    (by decide) (by decide) (by decide)

/-! ## The thread lookup -/

namespace AlertmanagerSilenceExporter

theorem foldl_findDiscussion_of_no_match (title : GoString) (ds : List TeamDiscussion)
    (init : Option TeamDiscussion) (h : ∀ e ∈ ds, e.GetTitle ≠ title) :
    ds.foldl (fun discussion d => if d.GetTitle = title then some d else discussion) init
      = init := by
  induction ds generalizing init with
  | nil => rfl
  | cons d ds ih =>
    have hd : d.GetTitle ≠ title := h d (List.mem_cons_self d ds)
    rw [List.foldl_cons, if_neg hd]
    exact ih init (fun e he => h e (List.mem_cons_of_mem d he))

theorem findDiscussion_last_match (title : GoString) (pre post : List TeamDiscussion)
    (d : TeamDiscussion) (hd : d.GetTitle = title) (h : ∀ e ∈ post, e.GetTitle ≠ title) :
    findDiscussion (pre ++ d :: post) title = some d := by
  unfold findDiscussion
  rw [List.foldl_append, List.foldl_cons, if_pos hd]
  exact foldl_findDiscussion_of_no_match title post (some d) h

/-- C9, as the claim states it, fails: of two discussions with the configured
title `T` the lookup selects the second (number 2), while the first one in the
list with that title is number 1. -/
theorem selectDiscussion_not_first_match :
    List.find? (fun d : TeamDiscussion => decide (d.GetTitle = "T".toList))
        [⟨some "T".toList, some "one".toList, none, some 1⟩,
         ⟨some "T".toList, some "two".toList, none, some 2⟩]
      = some ⟨some "T".toList, some "one".toList, none, some 1⟩
    ∧ selectDiscussion
        [⟨some "T".toList, some "one".toList, none, some 1⟩,
         ⟨some "T".toList, some "two".toList, none, some 2⟩] "T".toList
      = (⟨some "T".toList, some "two".toList, none, some 2⟩, false)
    ∧ (selectDiscussion
        [⟨some "T".toList, some "one".toList, none, some 1⟩,
         ⟨some "T".toList, some "two".toList, none, some 2⟩] "T".toList).1
      ≠ ⟨some "T".toList, some "one".toList, none, some 1⟩ := by
  decide

/-- C9, amended. The discussion selected for update is the last one in the
list whose title equals the configured title (last match wins when several
discussions have that title); when no discussion has that title, a new
discussion with that title, pinned, with an empty starting body, is
constructed and marked for creation. -/
theorem selectDiscussion_last_match_or_new (title : GoString) :
    (∀ (pre post : List TeamDiscussion) (d : TeamDiscussion),
        d.GetTitle = title → (∀ e ∈ post, e.GetTitle ≠ title) →
        selectDiscussion (pre ++ d :: post) title = (d, false))
    ∧ (∀ ds : List TeamDiscussion, (∀ e ∈ ds, e.GetTitle ≠ title) →
        selectDiscussion ds title
          = ({ Title := some title, Pinned := some true, Body := some [], Number := none },
             true)) := by
  constructor
  · intro pre post d hd h
    simp only [selectDiscussion, findDiscussion_last_match title pre post d hd h]
  · intro ds h
    have : findDiscussion ds title = none :=
      foldl_findDiscussion_of_no_match title ds none h
    simp only [selectDiscussion, this, newDiscussion]

/-- C9, amended, at a list with two discussions titled `T` and at a list with
none. -/
theorem selectDiscussion_last_match_or_new_witness :
    selectDiscussion
        ([⟨some "A".toList, some "zero".toList, none, some 0⟩,
          ⟨some "T".toList, some "one".toList, none, some 1⟩]
          ++ ⟨some "T".toList, some "two".toList, none, some 2⟩
            :: [⟨none, some "three".toList, none, some 3⟩]) "T".toList
      = (⟨some "T".toList, some "two".toList, none, some 2⟩, false)
    ∧ selectDiscussion [⟨some "A".toList, some "zero".toList, none, some 0⟩] "T".toList
      = ({ Title := some "T".toList, Pinned := some true, Body := some [], Number := none },
         true) :=
  ⟨(selectDiscussion_last_match_or_new "T".toList).1 _ _ _ (by decide) (by decide),
   (selectDiscussion_last_match_or_new "T".toList).2 _ (by decide)⟩

end AlertmanagerSilenceExporter

/-! ## The silence filter -/

namespace AlertmanagerSilenceExporter

theorem getSilences_loop (regexMatch : GoString → Bool) (matcherString : Matcher → GoString)
    (t : Int) (silences acc : List Silence) (n : Nat) :
    silences.foldl
      (fun (st : List Silence × Nat) s =>
        if !regexMatch s.Comment && !decide ((fun _ : Nat => t) st.2 > s.EndsAt) then
          (st.1 ++ [{ s with ID := matcherID (s.Matchers.map matcherString) }], st.2 + 1)
        else (st.1, st.2 + 1))
      (acc, n)
    = (acc ++ (silences.filter (fun s => !regexMatch s.Comment && decide (t ≤ s.EndsAt))).map
          (fun s => { s with ID := matcherID (s.Matchers.map matcherString) }),
       n + silences.length) := by
  induction silences generalizing acc n with
  | nil => simp
  | cons s rest ih =>
    rw [List.foldl_cons]
    by_cases hr : regexMatch s.Comment = true
    · simp only [hr, Bool.not_true, Bool.false_and, Bool.false_eq_true, if_false]
      rw [ih]
      simp [List.filter_cons, hr]
      omega
    · have hr0 : regexMatch s.Comment = false := by simpa using hr
      by_cases ht : t ≤ s.EndsAt
      · have hgt : ¬ t > s.EndsAt := by omega
        simp only [hr0, Bool.not_false, Bool.true_and, hgt, decide_False, Bool.true_eq, if_true,
          decide_not]
        rw [ih]
        simp [List.filter_cons, hr0, ht]
        omega
      · have hgt : t > s.EndsAt := by omega
        simp only [hr0, Bool.not_false, Bool.true_and, hgt, decide_True, Bool.not_true,
          Bool.false_eq_true, if_false]
        rw [ih]
        simp [List.filter_cons, hr0, ht]
        omega

/-- C7, as the claim states it, fails: a silence whose `EndsAt` equals the
evaluation time (here 5) is not strictly after it, and `getSilences` returns
it. -/
theorem getSilences_keeps_silence_ending_now :
    getSilences (fun _ => false) (fun m => m.Name) (fun _ => 5)
        [⟨"id".toList, [], 5, "me".toList, "disk full".toList⟩]
      = [⟨"[]".toList, [], 5, "me".toList, "disk full".toList⟩]
    ∧ ¬ ((5 : Int) < (Silence.mk "id".toList [] 5 "me".toList "disk full".toList).EndsAt) := by
  decide

/-- C7, amended. For every list `L` of silences returned by the silence API,
every exclusion pattern and every evaluation time `t`, the returned list is,
in the order of `L` (no re-sorting, no duplication), exactly the silences `s`
of `L` whose comment does not match the exclusion pattern and whose `EndsAt`
is not before `t` (`t ≤ EndsAt`), each with its `ID` replaced by its matcher
identifier; a silence is in the output if and only if it is such a silence of
`L` with the `ID` so replaced. -/
theorem getSilences_filter (regexMatch : GoString → Bool) (matcherString : Matcher → GoString)
    (t : Int) (L : List Silence) :
    getSilences regexMatch matcherString (fun _ => t) L
      = (L.filter (fun s => !regexMatch s.Comment && decide (t ≤ s.EndsAt))).map
          (fun s => { s with ID := matcherID (s.Matchers.map matcherString) })
    ∧ ∀ r : Silence, r ∈ getSilences regexMatch matcherString (fun _ => t) L ↔
        ∃ s, s ∈ L ∧ regexMatch s.Comment = false ∧ t ≤ s.EndsAt
          ∧ r = { s with ID := matcherID (s.Matchers.map matcherString) } := by
  have h : getSilences regexMatch matcherString (fun _ => t) L
      = (L.filter (fun s => !regexMatch s.Comment && decide (t ≤ s.EndsAt))).map
          (fun s => { s with ID := matcherID (s.Matchers.map matcherString) }) := by
    unfold getSilences
    rw [getSilences_loop]
    simp
  refine ⟨h, fun r => ?_⟩
  rw [h]
  simp only [List.mem_map, List.mem_filter, Bool.and_eq_true, Bool.not_eq_true',
    decide_eq_true_eq]
  constructor
  · rintro ⟨s, ⟨hs, hr, ht⟩, rfl⟩
    exact ⟨s, hs, hr, ht, rfl⟩
  · rintro ⟨s, hs, hr, ht, rfl⟩
    exact ⟨s, ⟨hs, hr, ht⟩, rfl⟩

end AlertmanagerSilenceExporter

/-! ## The matcher identifier -/

namespace AlertmanagerSilenceExporter

theorem PipesEscaped.cons {c : Char} {l : GoString} (hc : c ≠ '|') (h : PipesEscaped l) :
    PipesEscaped (c :: l) := by
  intro i hi
  cases i with
  | zero =>
    simp only [List.getElem?_cons_zero, Option.some.injEq] at hi
    exact absurd hi hc
  | succ k =>
    rw [List.getElem?_cons_succ] at hi
    obtain ⟨j, rfl, hj⟩ := h k hi
    exact ⟨j + 1, rfl, by rw [List.getElem?_cons_succ]; exact hj⟩

theorem PipesEscaped.escaped_pipe {l : GoString} (h : PipesEscaped l) :
    PipesEscaped ('\\' :: '|' :: l) := by
  intro i hi
  match i, hi with
  | 0, hi => simp at hi
  | 1, _ => exact ⟨0, rfl, rfl⟩
  | k + 2, hi =>
    simp only [List.getElem?_cons_succ] at hi
    obtain ⟨j, rfl, hj⟩ := h k hi
    exact ⟨j + 2, rfl, by simpa only [List.getElem?_cons_succ] using hj⟩

theorem replaceByte_replaceByte_pipes_quotes (s : GoString) :
    replaceByte (replaceByte s '|' "\\|".toList) '\"' "".toList
      = s.flatMap (fun c => if c = '|' then ['\\', '|'] else if c = '\"' then [] else [c]) := by
  induction s with
  | nil => rfl
  | cons c s ih =>
    simp only [replaceByte, List.flatMap_cons, List.flatMap_append] at ih ⊢
    rw [ih]
    congr 1
    by_cases h1 : c = '|'
    · subst h1
      decide
    · by_cases h2 : c = '\"'
      · subst h2
        decide
      · simp [h1, h2, List.flatMap_cons]

theorem pipesEscaped_flatMap (s : GoString) :
    PipesEscaped
      (s.flatMap (fun c => if c = '|' then ['\\', '|'] else if c = '\"' then [] else [c])) := by
  induction s with
  | nil => intro i hi; simp at hi
  | cons c s ih =>
    rw [List.flatMap_cons]
    by_cases h1 : c = '|'
    · rw [if_pos h1]
      exact ih.escaped_pipe
    · by_cases h2 : c = '\"'
      · rw [if_neg h1, if_pos h2]
        exact ih
      · rw [if_neg h1, if_neg h2]
        exact ih.cons h1

/-- C8. For every list of matcher strings, the matcher identifier stored in
the `ID` of the silence (the printed matcher list with every `|` replaced by
`\|` and then every double quote removed) contains no double quote, and every
`|` in it stands right after a backslash. -/
theorem matcherID_escaped (matcher : List GoString) :
    '\"' ∉ matcherID matcher
    ∧ ∀ i, (matcherID matcher)[i]? = some '|' →
        ∃ j, i = j + 1 ∧ (matcherID matcher)[j]? = some '\\' := by
  constructor
  · intro h
    simp only [matcherID, replaceByte, List.mem_flatMap] at h
    obtain ⟨a, -, ha⟩ := h
    by_cases hq : a = '\"'
    · simp [hq] at ha
    · simp only [if_neg hq, List.mem_singleton] at ha
      exact hq ha.symm
  · have := pipesEscaped_flatMap (sprintStrings matcher)
    rw [← replaceByte_replaceByte_pipes_quotes] at this
    exact this

/-- C8 at the matchers `a="x|y"` and `b=~"z"`: the identifier is
`[a=x\|y b=~z]`, its only `|` is at offset 5 and a backslash is at offset 4. -/
theorem matcherID_escaped_example :
    matcherID ["a=\"x|y\"".toList, "b=~\"z\"".toList] = "[a=x\\|y b=~z]".toList
    ∧ '\"' ∉ matcherID ["a=\"x|y\"".toList, "b=~\"z\"".toList]
    ∧ ∃ j, 5 = j + 1 ∧ (matcherID ["a=\"x|y\"".toList, "b=~\"z\"".toList])[j]? = some '\\' :=
  ⟨by decide, (matcherID_escaped ["a=\"x|y\"".toList, "b=~\"z\"".toList]).1,
   (matcherID_escaped ["a=\"x|y\"".toList, "b=~\"z\"".toList]).2 5 (by decide)⟩

end AlertmanagerSilenceExporter

/-! ## Occurrences of a marker in a body built from parts -/

namespace GoString

theorem prefix_of_prefix_append_cons {sub u r : GoString} {c : Char} (hc : c ∉ sub)
    (h : sub <+: u ++ c :: r) : sub <+: u := by
  rcases List.prefix_or_prefix_of_prefix h (List.prefix_append u (c :: r)) with h1 | h1
  · exact h1
  · obtain ⟨t, rfl⟩ := h1
    rw [List.prefix_append_right_inj] at h
    rcases List.prefix_cons_iff.1 h with h2 | ⟨t2, h2, -⟩
    · subst h2
      simp
    · subst h2
      exact absurd (by simp) hc

theorem occurrences_eq_zero_iff {sub : GoString} (hne : sub ≠ []) (s : GoString) :
    occurrences sub s = 0 ↔ ¬ sub <:+: s := by
  induction s with
  | nil => simp [occurrences, hne]
  | cons c s ih =>
    by_cases h : sub <+: c :: s
    · simp [occurrences, h, List.infix_cons_iff]
    · simp [occurrences, h, List.infix_cons_iff, ih]

theorem occurrences_append_cons {sub : GoString} {c : Char} (hc : c ∉ sub) (hne : sub ≠ [])
    (a b : GoString) :
    occurrences sub (a ++ c :: b) = occurrences sub a + occurrences sub b := by
  induction a with
  | nil =>
    have h : ¬ sub <+: c :: b := fun h =>
      hne (List.prefix_nil.1 (prefix_of_prefix_append_cons (u := []) hc h))
    simp [occurrences, h, hne]
  | cons x a ih =>
    have h : sub <+: x :: (a ++ c :: b) ↔ sub <+: x :: a :=
      ⟨fun h => prefix_of_prefix_append_cons (u := x :: a) hc h,
       fun h => h.trans (List.prefix_append (x :: a) (c :: b))⟩
    have e1 : occurrences sub (x :: (a ++ c :: b))
        = (if sub.isPrefixOf (x :: (a ++ c :: b)) then 1 else 0)
          + occurrences sub (a ++ c :: b) := rfl
    have e2 : occurrences sub (x :: a)
        = (if sub.isPrefixOf (x :: a) then 1 else 0) + occurrences sub a := rfl
    rw [List.cons_append, e1, e2, ih]
    simp only [List.isPrefixOf_iff_prefix, h]
    omega

theorem occurrences_self {sub : GoString} (hne : sub ≠ []) : occurrences sub sub = 1 := by
  cases sub with
  | nil => exact absurd rfl hne
  | cons x t =>
    have h0 : occurrences (x :: t) t = 0 := by
      rw [occurrences_eq_zero_iff hne]
      intro h
      have := h.length_le
      simp at this
    simp [occurrences, h0]

theorem FirstOccurrenceAt.append_cons {sub a b : GoString} {c : Char} {i : Nat}
    (hc : c ∉ sub) (ha : ¬ sub <:+: a) (h : FirstOccurrenceAt b sub i) :
    FirstOccurrenceAt (a ++ c :: b) sub (a.length + 1 + i) := by
  constructor
  · have : (a ++ c :: b).drop (a.length + 1 + i) = b.drop i := by
      rw [Nat.add_assoc, List.drop_append, Nat.add_comm 1 i, List.drop_succ_cons]
    rw [this]
    exact h.1
  · intro j hj hp
    by_cases hja : j ≤ a.length
    · rw [List.drop_append_of_le_length hja] at hp
      exact ha ((prefix_of_prefix_append_cons hc hp).isInfix.trans
        (List.drop_suffix j a).isInfix)
    · obtain ⟨k, rfl⟩ : ∃ k, j = a.length + 1 + k := ⟨j - (a.length + 1), by omega⟩
      have : (a ++ c :: b).drop (a.length + 1 + k) = b.drop k := by
        rw [Nat.add_assoc, List.drop_append, Nat.add_comm 1 k, List.drop_succ_cons]
      rw [this] at hp
      exact h.2 k (by omega) hp

theorem FirstOccurrenceAt.zero_of_prefix {sub s : GoString} (h : sub <+: s) :
    FirstOccurrenceAt s sub 0 :=
  ⟨by simpa using h, fun j hj => absurd hj (Nat.not_lt_zero j)⟩

end GoString

/-! ## The markers of an identity -/

theorem getStartIdentifier_eq (X : GoString) :
    getStartIdentifier X
      = '<' :: '!' :: '-' :: '-' :: ' ' :: 'S' :: 'T' :: 'A' :: 'R' :: 'T' :: '_'
          :: (X ++ [' ', '-', '-', '>']) := by
  simp [getStartIdentifier]

theorem getEndIdentifier_eq (X : GoString) :
    getEndIdentifier X
      = '<' :: '!' :: '-' :: '-' :: ' ' :: 'E' :: 'N' :: 'D' :: '_'
          :: (X ++ [' ', '-', '-', '>']) := by
  simp [getEndIdentifier]

theorem getStartIdentifier_ne_nil (X : GoString) : getStartIdentifier X ≠ [] := by
  rw [getStartIdentifier_eq]; simp

theorem getEndIdentifier_ne_nil (X : GoString) : getEndIdentifier X ≠ [] := by
  rw [getEndIdentifier_eq]; simp

theorem newline_not_mem_getStartIdentifier {X : GoString} (hX : '\n' ∉ X) :
    '\n' ∉ getStartIdentifier X := by
  rw [getStartIdentifier_eq]
  simp [hX]

theorem newline_not_mem_getEndIdentifier {X : GoString} (hX : '\n' ∉ X) :
    '\n' ∉ getEndIdentifier X := by
  rw [getEndIdentifier_eq]
  simp [hX]

theorem getStartIdentifier_not_infix_getEndIdentifier (X : GoString) :
    ¬ getStartIdentifier X <:+: getEndIdentifier X := by
  intro h
  have := h.length_le
  simp [getStartIdentifier, getEndIdentifier] at this

theorem getEndIdentifier_not_infix_getStartIdentifier (X : GoString) :
    ¬ getEndIdentifier X <:+: getStartIdentifier X := by
  intro h
  rw [getStartIdentifier_eq] at h
  rcases List.infix_cons_iff.1 h with h1 | h1
  · rw [getEndIdentifier_eq] at h1
    simp at h1
  rcases List.infix_cons_iff.1 h1 with h2 | h2
  · rw [getEndIdentifier_eq] at h2
    simp at h2
  rcases List.infix_cons_iff.1 h2 with h3 | h3
  · rw [getEndIdentifier_eq] at h3
    simp at h3
  have := h3.length_le
  simp [getEndIdentifier] at this

/-! ## Merging twice -/

namespace AlertmanagerSilenceExporter

theorem firstOccurrenceAt_start_appendSection {X base N : GoString} (hX : '\n' ∉ X)
    (hb : NoMarker X base) :
    FirstOccurrenceAt (appendSection X base N) (getStartIdentifier X) (base.length + 1) :=
  FirstOccurrenceAt.append_cons (newline_not_mem_getStartIdentifier hX) hb.1
    (FirstOccurrenceAt.zero_of_prefix (List.prefix_append _ _))

theorem firstOccurrenceAt_end_appendSection {X base N : GoString} (hX : '\n' ∉ X)
    (hb : NoMarker X base) (hN : NoMarker X N) :
    FirstOccurrenceAt (appendSection X base N) (getEndIdentifier X)
      (base.length + 1 + ((getStartIdentifier X).length + 1 + (N.length + 1 + 0))) :=
  FirstOccurrenceAt.append_cons (newline_not_mem_getEndIdentifier hX) hb.2
    (FirstOccurrenceAt.append_cons (newline_not_mem_getEndIdentifier hX)
      (getEndIdentifier_not_infix_getStartIdentifier X)
      (FirstOccurrenceAt.append_cons (newline_not_mem_getEndIdentifier hX) hN.2
        (FirstOccurrenceAt.zero_of_prefix List.prefix_rfl)))

/-- A body that is `base` followed by a section of `X`: the next merge
replaces that section. -/
theorem mergeBody_appendSection {X base N1 N2 : GoString} (hX : '\n' ∉ X)
    (hb : NoMarker X base) (hN1 : NoMarker X N1) :
    mergeBody X (appendSection X base N1) N2 = some (appendSection X base N2) := by
  have hs := firstOccurrenceAt_start_appendSection (N := N1) hX hb
  have he := firstOccurrenceAt_end_appendSection hX hb hN1
  have hne : appendSection X base N1 ≠ [] := by simp [appendSection]
  have htake : (appendSection X base N1).take base.length = base := by
    simp [appendSection]
  have hdrop : (appendSection X base N1).drop
      (base.length + 1 + ((getStartIdentifier X).length + 1 + (N1.length + 1 + 0))
        + (getEndIdentifier X).length) = [] := by
    apply List.drop_of_length_le
    simp [appendSection]
    omega
  unfold mergeBody
  rw [if_pos hne, removeOldAlertmanagerBlock_of_first hs he, htake, hdrop, List.append_nil]
  rfl

/-- In `base` followed by a section of `X`, each marker of `X` occurs once,
the start marker before the end marker. -/
theorem occurrences_appendSection {X base N : GoString} (hX : '\n' ∉ X)
    (hb : NoMarker X base) (hN : NoMarker X N) :
    occurrences (getStartIdentifier X) (appendSection X base N) = 1
    ∧ occurrences (getEndIdentifier X) (appendSection X base N) = 1
    ∧ Index (appendSection X base N) (getStartIdentifier X)
        < Index (appendSection X base N) (getEndIdentifier X) := by
  have hcS := newline_not_mem_getStartIdentifier hX
  have hcE := newline_not_mem_getEndIdentifier hX
  have hnS := getStartIdentifier_ne_nil X
  have hnE := getEndIdentifier_ne_nil X
  refine ⟨?_, ?_, ?_⟩
  · unfold appendSection
    rw [occurrences_append_cons hcS hnS, occurrences_append_cons hcS hnS,
      occurrences_append_cons hcS hnS, occurrences_self hnS,
      (occurrences_eq_zero_iff hnS base).2 hb.1, (occurrences_eq_zero_iff hnS N).2 hN.1,
      (occurrences_eq_zero_iff hnS _).2 (getStartIdentifier_not_infix_getEndIdentifier X)]
  · unfold appendSection
    rw [occurrences_append_cons hcE hnE, occurrences_append_cons hcE hnE,
      occurrences_append_cons hcE hnE, occurrences_self hnE,
      (occurrences_eq_zero_iff hnE base).2 hb.2, (occurrences_eq_zero_iff hnE N).2 hN.2,
      (occurrences_eq_zero_iff hnE _).2 (getEndIdentifier_not_infix_getStartIdentifier X)]
  · rw [Index_of_firstOccurrenceAt (firstOccurrenceAt_start_appendSection hX hb),
      Index_of_firstOccurrenceAt (firstOccurrenceAt_end_appendSection hX hb hN)]
    omega

/-- C3, as the claim states it, fails: the body `<!-- END_a -->` has no owned
span of `a` (no start marker at all); merging `x` and then `y` for `a` gives a
body with two start markers and three end markers of `a`. -/
theorem mergeBody_twice_stray_end_marker :
    ¬ getStartIdentifier "a".toList <:+: "<!-- END_a -->".toList
    ∧ mergeBody "a".toList "<!-- END_a -->".toList "x".toList
        = some "<!-- END_a -->\n<!-- START_a -->\nx\n<!-- END_a -->".toList
    ∧ mergeBody "a".toList "<!-- END_a -->\n<!-- START_a -->\nx\n<!-- END_a -->".toList "y".toList
        = some ("<!-- END_a -->\n<!-- START_a -->\nx\n<!-- END_a -->"
            ++ "\n<!-- START_a -->\ny\n<!-- END_a -->").toList
    ∧ occurrences (getStartIdentifier "a".toList)
        ("<!-- END_a -->\n<!-- START_a -->\nx\n<!-- END_a -->"
            ++ "\n<!-- START_a -->\ny\n<!-- END_a -->").toList = 2
    ∧ occurrences (getEndIdentifier "a".toList)
        ("<!-- END_a -->\n<!-- START_a -->\nx\n<!-- END_a -->"
            ++ "\n<!-- START_a -->\ny\n<!-- END_a -->").toList = 3 := by
  decide

/-- C3, amended. Let the identity `X` hold no newline, let `N1` and `N2` hold
no marker of `X`, and let the body either hold no marker of `X` (`base` is the
body) or be `pre ++ c ++ S(X) ++ mid ++ E(X) ++ post` with the shown markers
the first occurrences and no marker of `X` in `base = pre ++ post`. Then
merging `N1` and then `N2` for `X` returns
`base ++ "\n" ++ S(X) ++ "\n" ++ N2 ++ "\n" ++ E(X)`, in which the start
marker and the end marker of `X` each occur exactly once, the start before the
end, so the text wrapped between them is exactly `N2`. -/
theorem mergeBody_twice (X body base N1 N2 : GoString)
    (hX : '\n' ∉ X) (hbase : NoMarker X base) (hN1 : NoMarker X N1) (hN2 : NoMarker X N2)
    (hbody : body = base ∨ ∃ (pre mid post : GoString) (c : Char),
      body = pre ++ c :: (getStartIdentifier X ++ mid ++ getEndIdentifier X ++ post)
      ∧ base = pre ++ post
      ∧ FirstOccurrenceAt body (getStartIdentifier X) (pre.length + 1)
      ∧ FirstOccurrenceAt body (getEndIdentifier X)
          (pre.length + 1 + (getStartIdentifier X).length + mid.length)) :
    ∃ r1 r2, mergeBody X body N1 = some r1 ∧ mergeBody X r1 N2 = some r2
      ∧ r2 = base ++ "\n".toList ++ getStartIdentifier X ++ "\n".toList ++ N2
          ++ "\n".toList ++ getEndIdentifier X
      ∧ occurrences (getStartIdentifier X) r2 = 1
      ∧ occurrences (getEndIdentifier X) r2 = 1
      ∧ Index r2 (getStartIdentifier X) < Index r2 (getEndIdentifier X) := by
  have h1 : mergeBody X body N1 = some (appendSection X base N1) := by
    rcases hbody with rfl | ⟨pre, mid, post, c, rfl, rfl, hS, hE⟩
    · exact mergeBody_of_absent N1 (Or.inl hbase.1)
    · exact mergeBody_of_first_occurrences X N1 pre mid post c hS hE
  have h3 := occurrences_appendSection hX hbase hN2
  exact ⟨appendSection X base N1, appendSection X base N2, h1,
    mergeBody_appendSection hX hbase hN1, by simp [appendSection], h3.1, h3.2.1, h3.2.2⟩

/-- C3, amended, at the scenario body with one owned span of `foo`, merging
`NEW` and then `NEWER`. -/
theorem mergeBody_twice_witness :
    ∃ r1 r2,
      mergeBody "foo".toList
        "Intro\n<!-- START_foo -->\nOLD\n<!-- END_foo -->\nOutro".toList "NEW".toList = some r1
      ∧ mergeBody "foo".toList r1 "NEWER".toList = some r2
      ∧ r2 = "Intro\nOutro".toList ++ "\n".toList ++ getStartIdentifier "foo".toList
          ++ "\n".toList ++ "NEWER".toList ++ "\n".toList ++ getEndIdentifier "foo".toList
      ∧ occurrences (getStartIdentifier "foo".toList) r2 = 1
      ∧ occurrences (getEndIdentifier "foo".toList) r2 = 1
      ∧ Index r2 (getStartIdentifier "foo".toList) < Index r2 (getEndIdentifier "foo".toList) :=
  mergeBody_twice "foo".toList "Intro\n<!-- START_foo -->\nOLD\n<!-- END_foo -->\nOutro".toList
    "Intro\nOutro".toList "NEW".toList "NEWER".toList (by decide) (by decide) (by decide)
    (by decide)
    (Or.inr ⟨"Intro".toList, "\nOLD\n".toList, "\nOutro".toList, '\n', by decide, by decide,
      by decide, by decide⟩)

end AlertmanagerSilenceExporter

/-! ## Span isolation -/

namespace AlertmanagerSilenceExporter

/-- C2, as the claim states it, fails: with the identities `a` and `a -->b`
the start marker of `a` is a prefix of the start marker of `a -->b` (and so
for the end markers). In the body below the section of `a -->b` stands before
the section of `a`; merging `NEW` for `a` cuts the section of `a -->b` and
keeps the old section of `a`. -/
theorem mergeBody_cuts_other_identity :
    "a".toList ≠ "a -->b".toList
    ∧ "x<!-- START_a -->b -->B<!-- END_a -->b -->\n<!-- START_a -->A<!-- END_a -->".toList
      = ("x".toList
            ++ (getStartIdentifier "a -->b".toList ++ "B".toList
                ++ getEndIdentifier "a -->b".toList))
          ++ '\n' :: (getStartIdentifier "a".toList ++ "A".toList ++ getEndIdentifier "a".toList
                ++ [])
    ∧ mergeBody "a".toList
        "x<!-- START_a -->b -->B<!-- END_a -->b -->\n<!-- START_a -->A<!-- END_a -->".toList
        "NEW".toList
      = some "b -->\n<!-- START_a -->A<!-- END_a -->\n<!-- START_a -->\nNEW\n<!-- END_a -->".toList
    ∧ ¬ (getStartIdentifier "a -->b".toList ++ "B".toList ++ getEndIdentifier "a -->b".toList)
        <:+: "b -->\n<!-- START_a -->A<!-- END_a -->\n<!-- START_a -->\nNEW\n<!-- END_a -->".toList
    ∧ "b -->\n<!-- START_a -->A<!-- END_a -->\n<!-- START_a -->\nNEW\n<!-- END_a -->".toList
      ≠ ("x".toList
            ++ (getStartIdentifier "a -->b".toList ++ "B".toList
                ++ getEndIdentifier "a -->b".toList))
          ++ [] ++ "\n".toList ++ getStartIdentifier "a".toList ++ "\n".toList ++ "NEW".toList
          ++ "\n".toList ++ getEndIdentifier "a".toList := by
  decide

/-- C2, amended. For every two identities `A` and `B`, every new section
text `N` and every body `pre ++ c ++ S(A) ++ mid ++ E(A) ++ post` in which
the shown markers of `A` are the first occurrences of the start and of the end
marker of `A` in the body, and in which a section of `B` (start marker of `B`,
content, end marker of `B`) lies in `pre` or in `post`: merging `N` for `A`
gives `pre ++ post` (the body without the owned span of `A`, which begins
with the byte `c` before the start marker) followed by `"\n"` and the freshly
wrapped section of `A`, and the section of `B` still occurs in it. -/
theorem mergeBody_span_isolation (A B N pre mid post contentB : GoString) (c : Char)
    (hS : FirstOccurrenceAt
      (pre ++ c :: (getStartIdentifier A ++ mid ++ getEndIdentifier A ++ post))
      (getStartIdentifier A) (pre.length + 1))
    (hE : FirstOccurrenceAt
      (pre ++ c :: (getStartIdentifier A ++ mid ++ getEndIdentifier A ++ post))
      (getEndIdentifier A) (pre.length + 1 + (getStartIdentifier A).length + mid.length))
    (hB : getStartIdentifier B ++ contentB ++ getEndIdentifier B <:+: pre
      ∨ getStartIdentifier B ++ contentB ++ getEndIdentifier B <:+: post) :
    mergeBody A (pre ++ c :: (getStartIdentifier A ++ mid ++ getEndIdentifier A ++ post)) N
      = some (pre ++ post ++ "\n".toList ++ getStartIdentifier A ++ "\n".toList ++ N
          ++ "\n".toList ++ getEndIdentifier A)
    ∧ getStartIdentifier B ++ contentB ++ getEndIdentifier B
      <:+: pre ++ post ++ "\n".toList ++ getStartIdentifier A ++ "\n".toList ++ N
          ++ "\n".toList ++ getEndIdentifier A := by
  have heq : appendSection A (pre ++ post) N
      = pre ++ post ++ "\n".toList ++ getStartIdentifier A ++ "\n".toList ++ N
          ++ "\n".toList ++ getEndIdentifier A := by
    simp [appendSection]
  rw [mergeBody_of_first_occurrences A N pre mid post c hS hE, ← heq]
  refine ⟨rfl, ?_⟩
  have hpp : getStartIdentifier B ++ contentB ++ getEndIdentifier B <:+: pre ++ post := by
    rcases hB with h | h
    · exact h.trans (List.prefix_append pre post).isInfix
    · exact h.trans (List.suffix_append pre post).isInfix
  exact hpp.trans (List.prefix_append (pre ++ post) _).isInfix

/-- C2, amended, at a body with a section of `foo` followed by a section of
`bar`. -/
theorem mergeBody_span_isolation_witness :
    mergeBody "foo".toList
        ("Intro".toList ++ '\n' :: (getStartIdentifier "foo".toList ++ "\nOLD\n".toList
          ++ getEndIdentifier "foo".toList
          ++ "\n<!-- START_bar -->\nB\n<!-- END_bar -->\nOutro".toList)) "NEW".toList
      = some ("Intro".toList ++ "\n<!-- START_bar -->\nB\n<!-- END_bar -->\nOutro".toList
          ++ "\n".toList ++ getStartIdentifier "foo".toList ++ "\n".toList ++ "NEW".toList
          ++ "\n".toList ++ getEndIdentifier "foo".toList)
    ∧ getStartIdentifier "bar".toList ++ "\nB\n".toList ++ getEndIdentifier "bar".toList
      <:+: "Intro".toList ++ "\n<!-- START_bar -->\nB\n<!-- END_bar -->\nOutro".toList
          ++ "\n".toList ++ getStartIdentifier "foo".toList ++ "\n".toList ++ "NEW".toList
          ++ "\n".toList ++ getEndIdentifier "foo".toList :=
  mergeBody_span_isolation "foo".toList "bar".toList "NEW".toList "Intro".toList
    "\nOLD\n".toList "\n<!-- START_bar -->\nB\n<!-- END_bar -->\nOutro".toList "\nB\n".toList
    '\n' (by decide) (by decide) (Or.inr (by decide))

end AlertmanagerSilenceExporter
